import Mathlib

/-!
Verification of `analytics.py` (Module-4/Code): a shallow embedding of the
module's four components — `RollingStats` (Welford online mean/variance),
`TextCleaner` (text normalization), `Calculator` (validated arithmetic) and
`DataPipeline` (orchestration) — together with proofs of the specified
properties.

Modelling conventions:
* Python numbers are modelled as rationals (`ℚ`): the claims are stated over
  exact arithmetic.
* Python strings are modelled as lists of code points (`List ℕ`); the
  whitespace set and lowercasing follow Python's semantics on the ASCII
  range (`str.strip` / `str.split` / `str.lower`).
* Dynamically typed arguments are modelled by an inductive `Value` type;
  `isinstance(x, (int, float))` becomes `Value.isNum`, and raising
  `ValidationError` becomes returning `Except.error` with the message the
  source raises.
-/

/-- Dynamically typed Python values as they appear at the module's call
sites: a number (`int`/`float`, modelled exactly as `ℚ`), a string
(list of code points), `None`, or a list. -/
inductive Value : Type where
  | num  (q : ℚ)
  | str  (s : List ℕ)
  | none
  | list (xs : List Value)

/-- `isinstance(x, (int, float))` from the source's validation checks. -/
def Value.isNum : Value → Bool
  | .num _ => true
  | _ => false

/-- The numeric content of a numeric `Value` (the identity coercion
`float(x)` applied by the pipeline); 0 on non-numeric values, which the
code never reaches because validation precedes every use. -/
def Value.toNum : Value → ℚ
  | .num q => q
  | _ => 0

/-- `isinstance(s, str)` from `TextCleaner.clean`'s validation check. -/
def Value.isStr : Value → Bool
  | .str _ => true
  | _ => false

/-! ## RollingStats -/

/-- The dataclass `RollingStats`: observation count `n`, running mean
`_mean` and sum of squared deviations `_m2`. -/
structure RollingStats where
  n : ℕ
  _mean : ℚ
  _m2 : ℚ
deriving DecidableEq

/-- A fresh `RollingStats()` instance: the dataclass defaults
`n = 0`, `_mean = 0.0`, `_m2 = 0.0`. -/
def RollingStats.fresh : RollingStats := ⟨0, 0, 0⟩

/-- The numeric core of `RollingStats.update` (the statements after the
validation check): increment `n`, update the mean incrementally, and
accumulate `delta * delta2` into `_m2`. -/
def RollingStats.updateNum (s : RollingStats) (x : ℚ) : RollingStats :=
  let n := s.n + 1
  let delta := x - s._mean
  let mean := s._mean + delta / n
  let delta2 := x - mean
  { n := n, _mean := mean, _m2 := s._m2 + delta * delta2 }

/-- `RollingStats.update`: validates `isinstance(x, (int, float))`, raising
`ValidationError("x must be int or float")` otherwise, then performs the
Welford step. -/
def RollingStats.update (s : RollingStats) (x : Value) : Except String RollingStats :=
  if x.isNum then .ok (s.updateNum x.toNum) else .error "x must be int or float"

/-- One call to `update` as seen by a caller that catches the
`ValidationError`: a failing call leaves the instance unchanged. -/
def RollingStats.updateVal (s : RollingStats) (x : Value) : RollingStats :=
  match s.update x with
  | .ok s' => s'
  | .error _ => s

/-- Feeding a sequence of numbers one by one through the numeric core of
`update` (as `bulk_update` does on all-numeric input). -/
def RollingStats.processList (s : RollingStats) (xs : List ℚ) : RollingStats :=
  xs.foldl RollingStats.updateNum s

/-- A sequence of `update` calls, each one succeeding or failing
validation, with the caller continuing past failures. -/
def RollingStats.applyValues (s : RollingStats) (xs : List Value) : RollingStats :=
  xs.foldl RollingStats.updateVal s

/-- The property `RollingStats.mean`: the running mean, or 0.0 with no
observations. -/
def RollingStats.meanQ (s : RollingStats) : ℚ :=
  if s.n > 0 then s._mean else 0

/-- The property `RollingStats.variance`: sample variance
`_m2 / (n - 1)`, or 0.0 with fewer than 2 observations. -/
def RollingStats.varianceQ (s : RollingStats) : ℚ :=
  if s.n < 2 then 0 else s._m2 / (s.n - 1)

/-- The property `RollingStats.std`: square root of the sample variance
(`math.sqrt`), necessarily real-valued. -/
noncomputable def RollingStats.stdQ (s : RollingStats) : ℝ :=
  Real.sqrt (s.varianceQ : ℝ)

/-- Reference two-pass mean: the arithmetic mean of a list. -/
def listMean (xs : List ℚ) : ℚ := xs.sum / xs.length

/-- Sum of squares of a list. -/
def sumSq (xs : List ℚ) : ℚ := (xs.map (fun x => x ^ 2)).sum

/-- Reference two-pass unbiased sample variance: the sum of squared
deviations from the arithmetic mean, divided by `n - 1`. -/
def twoPassVariance (xs : List ℚ) : ℚ :=
  (xs.map (fun x => (x - listMean xs) ^ 2)).sum / ((xs.length : ℚ) - 1)

theorem processList_append (s : RollingStats) (xs : List ℚ) (x : ℚ) :
    s.processList (xs ++ [x]) = (s.processList xs).updateNum x := by
  simp [RollingStats.processList]

/-- The Welford invariant: after processing `xs` from a fresh instance,
`n` is the length, `_mean` is the arithmetic mean and `_m2` is
`Σ x² - (Σ x)² / n` (all divisions by zero evaluating to 0 in `ℚ`). -/
theorem processList_spec (xs : List ℚ) :
    (RollingStats.fresh.processList xs).n = xs.length ∧
    (RollingStats.fresh.processList xs)._mean = xs.sum / xs.length ∧
    (RollingStats.fresh.processList xs)._m2 = sumSq xs - xs.sum ^ 2 / xs.length := by
  induction xs using List.reverseRecOn with
  | nil =>
    simp [RollingStats.processList, RollingStats.fresh, sumSq]
  | append_singleton ys x ih =>
    obtain ⟨hn, hm, h2⟩ := ih
    rw [processList_append]
    rcases ys with _ | ⟨y, ys'⟩
    · simp [RollingStats.processList, RollingStats.fresh, RollingStats.updateNum, sumSq]
    · set s := RollingStats.fresh.processList (y :: ys') with hs
      have hlen : (0 : ℚ) < ((y :: ys').length : ℚ) := by
        exact_mod_cast Nat.succ_pos ys'.length
      have hne : ((y :: ys').length : ℚ) ≠ 0 := ne_of_gt hlen
      have hne1 : ((y :: ys').length : ℚ) + 1 ≠ 0 := by positivity
      refine ⟨?_, ?_, ?_⟩
      · simp [RollingStats.updateNum, hn]
      · simp only [RollingStats.updateNum, hn, hm]
        push_cast
        rw [List.sum_append]
        field_simp
        ring
      · simp only [RollingStats.updateNum, hn, hm, h2]
        have hsq : sumSq ((y :: ys') ++ [x]) = sumSq (y :: ys') + x ^ 2 := by
          simp [sumSq]; ring
        rw [hsq]
        push_cast
        rw [List.sum_append]
        field_simp
        ring

/-- Expanding the sum of squared deviations about an arbitrary point. -/
theorem sum_sq_dev (xs : List ℚ) (m : ℚ) :
    (xs.map (fun x => (x - m) ^ 2)).sum
      = sumSq xs - 2 * m * xs.sum + (xs.length : ℚ) * m ^ 2 := by
  induction xs with
  | nil => simp [sumSq]
  | cons y ys ih =>
    simp only [List.map_cons, List.sum_cons, List.length_cons, sumSq] at *
    rw [ih]
    push_cast
    ring

theorem applyValues_append (s : RollingStats) (vs : List Value) (v : Value) :
    s.applyValues (vs ++ [v]) = (s.applyValues vs).updateVal v := by
  simp [RollingStats.applyValues]

/-- The Welford accumulation step adds `(x - mean)^2 * n / (n + 1)` to
`_m2`. -/
theorem updateNum_m2 (s : RollingStats) (x : ℚ) :
    (s.updateNum x)._m2
      = s._m2 + (x - s._mean) ^ 2 * ((s.n : ℚ) / ((s.n : ℚ) + 1)) := by
  have h : ((s.n : ℚ) + 1) ≠ 0 := by positivity
  simp only [RollingStats.updateNum]
  push_cast
  field_simp
  ring

theorem updateNum_m2_nonneg (s : RollingStats) (x : ℚ) (h : 0 ≤ s._m2) :
    0 ≤ (s.updateNum x)._m2 := by
  rw [updateNum_m2]
  have h2 : 0 ≤ (x - s._mean) ^ 2 * ((s.n : ℚ) / ((s.n : ℚ) + 1)) := by positivity
  linarith

theorem updateVal_m2_nonneg (s : RollingStats) (v : Value) (h : 0 ≤ s._m2) :
    0 ≤ (s.updateVal v)._m2 := by
  unfold RollingStats.updateVal RollingStats.update
  rcases hv : v.isNum with _ | _
  · simpa [hv] using h
  · simpa [hv] using updateNum_m2_nonneg s v.toNum h

/-- C1: feeding any n rationals one by one through `update` into a fresh
`RollingStats`, the `mean` query returns their arithmetic mean, and for
n ≥ 2 the `variance` query returns the reference two-pass unbiased sample
variance. -/
theorem streamingStats_mean_variance (xs : List ℚ) (h : xs ≠ []) :
    (RollingStats.fresh.processList xs).meanQ = listMean xs ∧
    (2 ≤ xs.length →
      (RollingStats.fresh.processList xs).varianceQ = twoPassVariance xs) := by
  obtain ⟨hn, hm, h2⟩ := processList_spec xs
  have hpos : 0 < xs.length := List.length_pos.mpr h
  constructor
  · rw [RollingStats.meanQ, if_pos (by omega : (RollingStats.fresh.processList xs).n > 0),
      hm, listMean]
  · intro hlen
    have hne : ((xs.length : ℚ)) ≠ 0 := Nat.cast_ne_zero.mpr hpos.ne'
    rw [RollingStats.varianceQ, if_neg (by omega : ¬ (RollingStats.fresh.processList xs).n < 2),
      hn, h2, twoPassVariance, sum_sq_dev, listMean]
    congr 1
    field_simp
    ring

/-- C1 witness: the concrete stream [1, 2, 3] has mean 2 and sample
variance 1. -/
theorem streamingStats_mean_variance_witness :
    ([1, 2, 3] : List ℚ) ≠ [] ∧
    ((RollingStats.fresh.processList [1, 2, 3]).meanQ = listMean [1, 2, 3] ∧
     (2 ≤ ([1, 2, 3] : List ℚ).length →
       (RollingStats.fresh.processList [1, 2, 3]).varianceQ = twoPassVariance [1, 2, 3])) :=
  ⟨by decide, streamingStats_mean_variance [1, 2, 3] (by decide)⟩

/-- C2: `update` on a non-numeric argument fails with the
`ValidationError` message and leaves the state unchanged; on a numeric
argument it succeeds with the Welford step applied. -/
theorem update_validation (s : RollingStats) (v : Value) :
    (v.isNum = false →
      s.update v = .error "x must be int or float" ∧ s.updateVal v = s) ∧
    (v.isNum = true → s.update v = .ok (s.updateNum v.toNum)) := by
  constructor
  · intro hv
    constructor
    · simp [RollingStats.update, hv]
    · simp [RollingStats.updateVal, RollingStats.update, hv]
  · intro hv
    simp [RollingStats.update, hv]

/-- C2 witness: updating with the string "hi" fails and preserves the
fresh state; updating with the number 3 succeeds. -/
theorem update_validation_witness :
    (RollingStats.fresh.update (.str [104, 105]) = .error "x must be int or float" ∧
     RollingStats.fresh.updateVal (.str [104, 105]) = RollingStats.fresh) ∧
    RollingStats.fresh.update (.num 3) = .ok (RollingStats.fresh.updateNum 3) :=
  ⟨(update_validation RollingStats.fresh (.str [104, 105])).1 rfl,
   (update_validation RollingStats.fresh (.num 3)).2 rfl⟩

/-- C3: every successful `update` preserves non-negativity of `_m2`, and
every state reachable from fresh by a sequence of update calls (succeeding
or failing validation) has `_m2 ≥ 0`. -/
theorem m2_nonneg_invariant :
    (∀ (s : RollingStats) (x : ℚ), 0 ≤ s._m2 → 0 ≤ (s.updateNum x)._m2) ∧
    ∀ (vs : List Value), 0 ≤ (RollingStats.fresh.applyValues vs)._m2 := by
  refine ⟨updateNum_m2_nonneg, ?_⟩
  intro vs
  induction vs using List.reverseRecOn with
  | nil => simp [RollingStats.applyValues, RollingStats.fresh]
  | append_singleton ws v ih =>
    rw [applyValues_append]
    exact updateVal_m2_nonneg _ _ ih

/-- C3 witness: one concrete successful update, and one concrete mixed
stream (number, string, number). -/
theorem m2_nonneg_invariant_witness :
    0 ≤ ((⟨2, 5, 1⟩ : RollingStats).updateNum 9)._m2 ∧
    0 ≤ (RollingStats.fresh.applyValues [.num 1, .str [97], .num 4])._m2 :=
  ⟨m2_nonneg_invariant.1 ⟨2, 5, 1⟩ 9 (by norm_num),
   m2_nonneg_invariant.2 [.num 1, .str [97], .num 4]⟩

/-- C4: `variance` and `std` return exactly 0 when `n < 2`; `mean`
returns exactly 0 when `n = 0`. -/
theorem queries_default_zero (s : RollingStats) :
    (s.n < 2 → s.varianceQ = 0 ∧ s.stdQ = 0) ∧ (s.n = 0 → s.meanQ = 0) := by
  constructor
  · intro h
    have hv : s.varianceQ = 0 := by simp [RollingStats.varianceQ, h]
    refine ⟨hv, ?_⟩
    rw [RollingStats.stdQ, hv]
    simp
  · intro h
    simp [RollingStats.meanQ, h]

/-- C4 witness: a state with a single observation has variance and
standard deviation 0; the fresh state has mean 0. -/
theorem queries_default_zero_witness :
    ((⟨1, 3, 7⟩ : RollingStats).varianceQ = 0 ∧ (⟨1, 3, 7⟩ : RollingStats).stdQ = 0) ∧
    RollingStats.fresh.meanQ = 0 :=
  ⟨(queries_default_zero ⟨1, 3, 7⟩).1 (by decide),
   (queries_default_zero RollingStats.fresh).2 rfl⟩

/-! ## TextCleaner

Python strings are lists of code points; `str.strip()`, `str.split()` and
`str.lower()` are modelled on the ASCII range: the whitespace set is
space, tab, newline, carriage return, vertical tab and form feed, and
lowercasing maps `A`–`Z` to `a`–`z`. -/

/-- Membership in Python's ASCII whitespace set (as used by `str.strip`
and no-argument `str.split`). -/
def isSpace (c : ℕ) : Bool :=
  c = 32 || c = 9 || c = 10 || c = 13 || c = 11 || c = 12

/-- `str.lower` on one ASCII code point. -/
def toLowerCh (c : ℕ) : ℕ := if 65 ≤ c ∧ c ≤ 90 then c + 32 else c

/-- `s.lower()`. -/
def pyLower (l : List ℕ) : List ℕ := l.map toLowerCh

/-- `s.strip()`: drop whitespace from the front, then from the back. -/
def pyStrip (l : List ℕ) : List ℕ :=
  ((l.dropWhile isSpace).reverse.dropWhile isSpace).reverse

/-- One character step of no-argument `str.split`, scanning from the
right: a whitespace character opens a fresh (empty) segment, any other
character is prepended to the current first segment. -/
def splitStep (c : ℕ) (acc : List (List ℕ)) : List (List ℕ) :=
  if isSpace c then [] :: acc else (c :: acc.headI) :: acc.tail

/-- The raw segmentation underlying `s.split()`: every maximal run of
non-whitespace characters becomes a segment, with empty segments marking
whitespace boundaries. -/
def splitAux (l : List ℕ) : List (List ℕ) := l.foldr splitStep [[]]

/-- `s.split()`: the non-empty maximal runs of non-whitespace
characters. -/
def pySplit (l : List ℕ) : List (List ℕ) :=
  (splitAux l).filter (fun w => !w.isEmpty)

/-- `" ".join(ws)`. -/
def pyJoin : List (List ℕ) → List ℕ
  | [] => []
  | [w] => w
  | w :: ws => w ++ 32 :: pyJoin ws

/-- The `TextCleaner` class: its two configuration flags. -/
structure TextCleaner where
  lowercase : Bool
  collapse_spaces : Bool

/-- `TextCleaner()` with the constructor defaults
(`lowercase=True`, `collapse_spaces=True`). -/
def TextCleaner.default : TextCleaner := ⟨true, true⟩

/-- The body of `TextCleaner.clean` after validation:
`out = s.strip()`; if `collapse_spaces`, `out = " ".join(out.split())`;
if `lowercase`, `out = out.lower()`. -/
def TextCleaner.cleanStr (t : TextCleaner) (s : List ℕ) : List ℕ :=
  let out := pyStrip s
  let out := if t.collapse_spaces then pyJoin (pySplit out) else out
  if t.lowercase then pyLower out else out

/-- `TextCleaner.clean`: raises `ValidationError("s must be a string")`
unless the argument is a string. -/
def TextCleaner.clean (t : TextCleaner) (v : Value) : Except String (List ℕ) :=
  match v with
  | .str s => .ok (t.cleanStr s)
  | _ => .error "s must be a string"

/-- Spec step (1): strip leading and trailing whitespace. -/
def stripStep (s : List ℕ) : List ℕ := pyStrip s

/-- Spec step (2): if `collapseSpaces`, split on any whitespace run and
rejoin with single spaces. -/
def collapseStep (b : Bool) (s : List ℕ) : List ℕ :=
  if b then pyJoin (pySplit s) else s

/-- Spec step (3): if `lowercase`, lowercase the result. -/
def lowerStep (b : Bool) (s : List ℕ) : List ℕ :=
  if b then pyLower s else s

/-- Modelled from the spec's words: `clean` fails with `ValidationError`
on a non-string and otherwise applies steps (1), (2), (3) in exactly that
order. -/
def cleanSpec (t : TextCleaner) (v : Value) : Except String (List ℕ) :=
  match v with
  | .str s => .ok (lowerStep t.lowercase (collapseStep t.collapse_spaces (stripStep s)))
  | _ => .error "s must be a string"

/-- C5: for every configuration and every value, `TextCleaner.clean`
agrees with the spec's three-step description (strip, then optional
collapse, then optional lowercase, with `ValidationError` on
non-strings). -/
theorem clean_refines_spec (t : TextCleaner) (v : Value) :
    t.clean v = cleanSpec t v := by
  cases v <;> rfl

theorem toLowerCh_idem (c : ℕ) : toLowerCh (toLowerCh c) = toLowerCh c := by
  unfold toLowerCh
  by_cases h : 65 ≤ c ∧ c ≤ 90
  · rw [if_pos h, if_neg (by omega)]
  · rw [if_neg h, if_neg h]

theorem isSpace_toLowerCh (c : ℕ) : isSpace (toLowerCh c) = isSpace c := by
  unfold toLowerCh
  by_cases h : 65 ≤ c ∧ c ≤ 90
  · rw [if_pos h]
    have hl : isSpace (c + 32) = false := by simp [isSpace]; omega
    have hr : isSpace c = false := by simp [isSpace]; omega
    rw [hl, hr]
  · rw [if_neg h]

theorem pyLower_idem (l : List ℕ) : pyLower (pyLower l) = pyLower l := by
  simp only [pyLower, List.map_map]
  exact List.map_congr_left (fun c _ => toLowerCh_idem c)

theorem pyJoin_cons_cons (w v : List ℕ) (ws : List (List ℕ)) :
    pyJoin (w :: v :: ws) = w ++ 32 :: pyJoin (v :: ws) := rfl

theorem pyLower_pyJoin (ws : List (List ℕ)) :
    pyLower (pyJoin ws) = pyJoin (ws.map pyLower) := by
  induction ws with
  | nil => rfl
  | cons w vs ih =>
    cases vs with
    | nil => rfl
    | cons v vs' =>
      rw [pyJoin_cons_cons, List.map_cons, List.map_cons, pyJoin_cons_cons,
        ← List.map_cons pyLower v vs']
      rw [pyLower, List.map_append, List.map_cons, ← pyLower, ← pyLower, ih]
      norm_num [toLowerCh]

theorem splitAux_cons (c : ℕ) (cs : List ℕ) :
    splitAux (c :: cs) = splitStep c (splitAux cs) := rfl

theorem splitAux_ne_nil (l : List ℕ) : splitAux l ≠ [] := by
  cases l with
  | nil => simp [splitAux]
  | cons c cs =>
    rw [splitAux_cons]
    unfold splitStep
    split <;> simp

theorem splitAux_no_space (l : List ℕ) :
    ∀ w ∈ splitAux l, ∀ c ∈ w, isSpace c = false := by
  induction l with
  | nil =>
    intro w hw c hc
    simp only [splitAux, List.foldr_nil, List.mem_singleton] at hw
    subst hw
    simp at hc
  | cons d ds ih =>
    intro w hw c hc
    rw [splitAux_cons] at hw
    unfold splitStep at hw
    by_cases hd : isSpace d = true
    · rw [if_pos hd] at hw
      rcases List.mem_cons.mp hw with h | h
      · subst h; simp at hc
      · exact ih w h c hc
    · rw [if_neg hd] at hw
      rcases List.mem_cons.mp hw with h | h
      · subst h
        rcases List.mem_cons.mp hc with h' | h'
        · subst h'; exact Bool.eq_false_iff.mpr hd
        · obtain ⟨a, as, ha⟩ := List.exists_cons_of_ne_nil (splitAux_ne_nil ds)
          have : (splitAux ds).headI ∈ splitAux ds := by rw [ha]; simp
          exact ih _ this c h'
      · exact ih w (List.mem_of_mem_tail h) c hc

theorem splitAux_append_word (w l : List ℕ) (hw : ∀ c ∈ w, isSpace c = false) :
    splitAux (w ++ l) = (w ++ (splitAux l).headI) :: (splitAux l).tail := by
  induction w with
  | nil =>
    obtain ⟨a, as, ha⟩ := List.exists_cons_of_ne_nil (splitAux_ne_nil l)
    simp [ha]
  | cons c cs ih =>
    have hc : isSpace c = false := hw c (by simp)
    rw [List.cons_append, splitAux_cons, ih (fun d hd => hw d (by simp [hd]))]
    unfold splitStep
    rw [if_neg (by simp [hc])]
    simp

theorem splitAux_space_cons (c : ℕ) (l : List ℕ) (hc : isSpace c = true) :
    splitAux (c :: l) = [] :: splitAux l := by
  rw [splitAux_cons]
  unfold splitStep
  rw [if_pos hc]

theorem splitAux_pyJoin (ws : List (List ℕ)) (h : ws ≠ [])
    (hsf : ∀ w ∈ ws, ∀ c ∈ w, isSpace c = false) :
    splitAux (pyJoin ws) = ws := by
  induction ws with
  | nil => exact absurd rfl h
  | cons w vs ih =>
    cases vs with
    | nil =>
      have hw := splitAux_append_word w [] (fun c hc => hsf w (by simp) c hc)
      simpa [splitAux] using hw
    | cons v vs' =>
      rw [pyJoin_cons_cons,
        splitAux_append_word w _ (fun c hc => hsf w (by simp) c hc),
        splitAux_space_cons 32 _ (by decide)]
      simp only [List.headI, List.tail, List.append_nil]
      rw [ih (by simp) (fun u hu c hc => hsf u (by simp [hu]) c hc)]

theorem pySplit_pyJoin (ws : List (List ℕ)) (hne : ∀ w ∈ ws, w ≠ [])
    (hsf : ∀ w ∈ ws, ∀ c ∈ w, isSpace c = false) :
    pySplit (pyJoin ws) = ws := by
  cases ws with
  | nil => rfl
  | cons w vs =>
    rw [pySplit, splitAux_pyJoin _ (by simp) hsf]
    exact List.filter_eq_self.mpr fun u hu => by
      simpa using hne u hu

theorem dropWhile_pyJoin (ws : List (List ℕ)) (hne : ∀ w ∈ ws, w ≠ [])
    (hsf : ∀ w ∈ ws, ∀ c ∈ w, isSpace c = false) :
    (pyJoin ws).dropWhile isSpace = pyJoin ws := by
  cases ws with
  | nil => rfl
  | cons w vs =>
    obtain ⟨c, w', hw⟩ := List.exists_cons_of_ne_nil (hne w (by simp))
    have hc : isSpace c = false := hsf w (by simp) c (by rw [hw]; simp)
    cases vs with
    | nil =>
      rw [show pyJoin [w] = w from rfl, hw, List.dropWhile_cons]
      simp [hc]
    | cons v vs' =>
      rw [pyJoin_cons_cons, hw, List.cons_append, List.dropWhile_cons]
      simp [hc]

theorem pyJoin_append_singleton (M : List (List ℕ)) (u : List ℕ) (h : M ≠ []) :
    pyJoin (M ++ [u]) = pyJoin M ++ 32 :: u := by
  induction M with
  | nil => exact absurd rfl h
  | cons m ms ih =>
    cases ms with
    | nil => rfl
    | cons m' ms' =>
      rw [show (m :: m' :: ms') ++ [u] = m :: ((m' :: ms') ++ [u]) from rfl,
        show (m' :: ms') ++ [u] = m' :: (ms' ++ [u]) from rfl]
      rw [pyJoin_cons_cons]
      rw [show m' :: (ms' ++ [u]) = (m' :: ms') ++ [u] from rfl, ih (by simp),
        pyJoin_cons_cons]
      simp

theorem pyJoin_reverse (ws : List (List ℕ)) :
    (pyJoin ws).reverse = pyJoin ((ws.map List.reverse).reverse) := by
  induction ws with
  | nil => rfl
  | cons w vs ih =>
    cases vs with
    | nil => rfl
    | cons v vs' =>
      rw [pyJoin_cons_cons, List.reverse_append, List.reverse_cons,
        List.map_cons, List.reverse_cons,
        pyJoin_append_singleton _ _ (by simp), ← ih]
      simp

theorem pyStrip_pyJoin (ws : List (List ℕ)) (hne : ∀ w ∈ ws, w ≠ [])
    (hsf : ∀ w ∈ ws, ∀ c ∈ w, isSpace c = false) :
    pyStrip (pyJoin ws) = pyJoin ws := by
  have hne' : ∀ w ∈ (ws.map List.reverse).reverse, w ≠ [] := by
    intro w hw
    rw [List.mem_reverse, List.mem_map] at hw
    obtain ⟨u, hu, rfl⟩ := hw
    simpa using hne u hu
  have hsf' : ∀ w ∈ (ws.map List.reverse).reverse, ∀ c ∈ w, isSpace c = false := by
    intro w hw c hc
    rw [List.mem_reverse, List.mem_map] at hw
    obtain ⟨u, hu, rfl⟩ := hw
    exact hsf u hu c (List.mem_reverse.mp hc)
  unfold pyStrip
  rw [dropWhile_pyJoin ws hne hsf, pyJoin_reverse ws, dropWhile_pyJoin _ hne' hsf',
    ← pyJoin_reverse ws, List.reverse_reverse]

/-- C6: under the default configuration, `clean` is idempotent — the
output of one `clean` is a fixed point of a second `clean`. -/
theorem clean_idempotent_default (s : List ℕ) :
    TextCleaner.default.cleanStr (TextCleaner.default.cleanStr s)
      = TextCleaner.default.cleanStr s := by
  have hclean : ∀ u : List ℕ, TextCleaner.default.cleanStr u
      = pyLower (pyJoin (pySplit (pyStrip u))) := fun u => rfl
  have hWne : ∀ w ∈ pySplit (pyStrip s), w ≠ [] := by
    intro w hw
    rw [pySplit, List.mem_filter] at hw
    simpa using hw.2
  have hWsf : ∀ w ∈ pySplit (pyStrip s), ∀ c ∈ w, isSpace c = false :=
    fun w hw => splitAux_no_space _ w (List.mem_filter.mp hw).1
  have hW'ne : ∀ w ∈ (pySplit (pyStrip s)).map pyLower, w ≠ [] := by
    intro w hw
    rw [List.mem_map] at hw
    obtain ⟨u, hu, rfl⟩ := hw
    simpa [pyLower] using hWne u hu
  have hW'sf : ∀ w ∈ (pySplit (pyStrip s)).map pyLower, ∀ c ∈ w, isSpace c = false := by
    intro w hw c hc
    rw [List.mem_map] at hw
    obtain ⟨u, hu, rfl⟩ := hw
    rw [pyLower, List.mem_map] at hc
    obtain ⟨d, hd, rfl⟩ := hc
    rw [isSpace_toLowerCh]
    exact hWsf u hu d hd
  rw [hclean s, hclean (pyLower (pyJoin (pySplit (pyStrip s))))]
  rw [pyLower_pyJoin, pyLower_pyJoin]
  rw [pyStrip_pyJoin _ hW'ne hW'sf, pySplit_pyJoin _ hW'ne hW'sf]
  rw [List.map_map]
  congr 1
  exact List.map_congr_left fun w _ => pyLower_idem w

/-! ## Calculator -/

/-- `Calculator.add`: validates both arguments
(`_validate_numbers(a, b)`), then returns `a + b`. -/
def Calculator.add (a b : Value) : Except String ℚ :=
  if a.isNum && b.isNum then .ok (a.toNum + b.toNum)
  else .error "all inputs must be int or float"

/-- `Calculator.mul`: validates both arguments, then returns `a * b`. -/
def Calculator.mul (a b : Value) : Except String ℚ :=
  if a.isNum && b.isNum then .ok (a.toNum * b.toNum)
  else .error "all inputs must be int or float"

/-- The loop of `Calculator.mean`: per element, `_validate_numbers(v)`
(raising on a non-numeric element), then `total += v; count += 1`;
finally `total / count if count else 0.0`. -/
def Calculator.meanLoop : List Value → ℚ → ℕ → Except String ℚ
  | [], total, count => .ok (if count = 0 then 0 else total / count)
  | v :: vs, total, count =>
    if v.isNum then Calculator.meanLoop vs (total + v.toNum) (count + 1)
    else .error "all inputs must be int or float"

/-- `Calculator.mean`: the loop started from `total = 0.0`, `count = 0`. -/
def Calculator.meanV (values : List Value) : Except String ℚ :=
  Calculator.meanLoop values 0 0

theorem meanLoop_cons (v : Value) (vs : List Value) (t : ℚ) (c : ℕ) :
    Calculator.meanLoop (v :: vs) t c
      = if v.isNum then Calculator.meanLoop vs (t + v.toNum) (c + 1)
        else .error "all inputs must be int or float" := rfl

theorem meanLoop_all_num (vs : List Value) (t : ℚ) (c : ℕ)
    (h : ∀ v ∈ vs, v.isNum = true) :
    Calculator.meanLoop vs t c
      = .ok (if c + vs.length = 0 then 0
             else (t + (vs.map Value.toNum).sum) / (c + vs.length)) := by
  induction vs generalizing t c with
  | nil => simp [Calculator.meanLoop]
  | cons v vs ih =>
    have hv := h v (by simp)
    rw [meanLoop_cons, if_pos (by simp [hv]), ih _ _ (fun u hu => h u (by simp [hu]))]
    simp only [List.length_cons, List.map_cons, List.sum_cons]
    rw [if_neg (by omega), if_neg (by omega)]
    congr 1
    push_cast
    ring_nf

theorem meanLoop_err (vs : List Value) (t : ℚ) (c : ℕ)
    (h : ∃ v ∈ vs, v.isNum = false) :
    Calculator.meanLoop vs t c = .error "all inputs must be int or float" := by
  induction vs generalizing t c with
  | nil => simp at h
  | cons v vs ih =>
    rw [meanLoop_cons]
    by_cases hv : v.isNum = true
    · rw [if_pos (by simp [hv])]
      apply ih
      rcases h with ⟨u, hu, hnum⟩
      rcases List.mem_cons.mp hu with rfl | hu'
      · rw [hv] at hnum; cases hnum
      · exact ⟨u, hu', hnum⟩
    · rw [if_neg (by simpa using hv)]

/-- C7: `Calculator.mean` returns 0.0 on the empty sequence, the total
divided by the count on an all-numeric sequence, and fails with the
`ValidationError` message if any element is non-numeric (no partial
result). -/
theorem calculator_mean_spec (vs : List Value) :
    Calculator.meanV [] = .ok 0 ∧
    ((∀ v ∈ vs, v.isNum = true) →
      Calculator.meanV vs = .ok ((vs.map Value.toNum).sum / vs.length)) ∧
    ((∃ v ∈ vs, v.isNum = false) →
      Calculator.meanV vs = .error "all inputs must be int or float") := by
  refine ⟨rfl, ?_, ?_⟩
  · intro h
    rw [Calculator.meanV, meanLoop_all_num vs 0 0 h]
    rcases vs with _ | ⟨v, vs'⟩
    · simp
    · rw [if_neg (by simp)]
      simp
  · intro h
    exact meanLoop_err vs 0 0 h

/-- C7 witness: mean of [2, 4, 6] is 4; mean of [1, None] fails. -/
theorem calculator_mean_spec_witness :
    Calculator.meanV [.num 2, .num 4, .num 6]
      = .ok (([Value.num 2, .num 4, .num 6].map Value.toNum).sum
          / ([Value.num 2, .num 4, .num 6] : List Value).length) ∧
    Calculator.meanV [.num 1, .none] = .error "all inputs must be int or float" :=
  ⟨(calculator_mean_spec [.num 2, .num 4, .num 6]).2.1
      (by decide),
   (calculator_mean_spec [.num 1, .none]).2.2
      ⟨.none, by simp, rfl⟩⟩

/-! ## DataPipeline -/

/-- The dataclass `DataPipeline`: a `TextCleaner`, a `RollingStats` and
the `cache` of ingested numeric values. -/
structure DataPipeline where
  cleaner : TextCleaner
  stats : RollingStats
  cache : List ℚ

/-- `DataPipeline()` with its default factories: default cleaner, fresh
stats, empty cache. -/
def DataPipeline.fresh : DataPipeline :=
  ⟨TextCleaner.default, RollingStats.fresh, []⟩

/-- `DataPipeline.ingest_texts`: cleans each text in input order and
returns the cleaned copies; the first non-string raises `ValidationError`
and no partial result escapes. The pipeline's own fields are untouched. -/
def DataPipeline.ingest_texts (p : DataPipeline) : List Value → Except String (List (List ℕ))
  | [] => .ok []
  | t :: ts =>
    match p.cleaner.clean t with
    | .error e => .error e
    | .ok c =>
      match p.ingest_texts ts with
      | .error e => .error e
      | .ok cs => .ok (c :: cs)

/-- `DataPipeline.ingest_numbers`: for each element in order,
`self.stats.update(x)` (which raises on a non-numeric element before any
effect), then `self.cache.append(float(x))`. The result is the pipeline
state after the call together with the raised error, if any: already
processed elements stay applied. -/
def DataPipeline.ingest_numbers : DataPipeline → List Value → DataPipeline × Option String
  | p, [] => (p, Option.none)
  | p, x :: xs =>
    match p.stats.update x with
    | .error e => (p, some e)
    | .ok st =>
      DataPipeline.ingest_numbers { p with stats := st, cache := p.cache ++ [x.toNum] } xs

/-- `DataPipeline.reset`: `self.stats = RollingStats()`;
`self.cache.clear()`. -/
def DataPipeline.reset (p : DataPipeline) : DataPipeline :=
  { p with stats := RollingStats.fresh, cache := [] }

/-- The per-element effect of `ingest_numbers` (stats update, then cache
append), folded over a list of numeric values. -/
def DataPipeline.applyNums (p : DataPipeline) (vs : List Value) : DataPipeline :=
  vs.foldl
    (fun q v => { q with stats := q.stats.updateNum v.toNum, cache := q.cache ++ [v.toNum] }) p

theorem ingest_numbers_cons (p : DataPipeline) (x : Value) (xs : List Value) :
    p.ingest_numbers (x :: xs)
      = match p.stats.update x with
        | .error e => (p, some e)
        | .ok st =>
          DataPipeline.ingest_numbers { p with stats := st, cache := p.cache ++ [x.toNum] } xs := rfl

/-- `ingest_numbers` applies the per-element effect to the longest
all-numeric prefix and reports the `ValidationError` raised at the first
non-numeric element, if any. -/
theorem ingest_numbers_spec (p : DataPipeline) (xs : List Value) :
    p.ingest_numbers xs
      = (p.applyNums (xs.takeWhile Value.isNum),
         if xs.all Value.isNum then Option.none else some "x must be int or float") := by
  induction xs generalizing p with
  | nil => simp [DataPipeline.ingest_numbers, DataPipeline.applyNums]
  | cons x xs ih =>
    by_cases hx : x.isNum = true
    · have hupd : p.stats.update x = .ok (p.stats.updateNum x.toNum) := by
        simp [RollingStats.update, hx]
      rw [ingest_numbers_cons, hupd]
      dsimp only
      rw [ih]
      simp [List.takeWhile_cons, List.all_cons, hx, DataPipeline.applyNums]
    · have hupd : p.stats.update x = .error "x must be int or float" := by
        simp [RollingStats.update, hx]
      rw [ingest_numbers_cons, hupd]
      simp [List.takeWhile_cons, List.all_cons, hx, DataPipeline.applyNums]

/-- C8: `ingest_numbers` processes left to right — the longest numeric
prefix is fully applied (stats updated, then value appended to cache),
and the first non-numeric element raises `ValidationError` with no
rollback of the already processed elements. -/
theorem pipeline_ingest_numbers_spec (p : DataPipeline) (xs : List Value) :
    p.ingest_numbers xs
      = (p.applyNums (xs.takeWhile Value.isNum),
         if xs.all Value.isNum then Option.none else some "x must be int or float") :=
  ingest_numbers_spec p xs

/-- C9: `reset` installs a fresh zero-state `RollingStats` and an empty
cache, and leaves the `TextCleaner` and its configuration unchanged. -/
theorem pipeline_reset_spec (p : DataPipeline) :
    p.reset.stats = RollingStats.fresh ∧
    p.reset.stats.n = 0 ∧ p.reset.stats._mean = 0 ∧ p.reset.stats._m2 = 0 ∧
    p.reset.cache = [] ∧
    p.reset.cleaner = p.cleaner ∧
    p.reset.cleaner.lowercase = p.cleaner.lowercase ∧
    p.reset.cleaner.collapse_spaces = p.cleaner.collapse_spaces :=
  ⟨rfl, rfl, rfl, rfl, rfl, rfl, rfl, rfl⟩

/-- Pipeline states reachable from a fresh pipeline by any sequence of
`ingest_texts` (which never mutates the pipeline), `ingest_numbers`
(taking the resulting state whether the call succeeded or raised partway)
and `reset` calls. -/
inductive DataPipeline.Reachable : DataPipeline → Prop where
  | fresh : Reachable DataPipeline.fresh
  | ingestNumbers (p : DataPipeline) (xs : List Value) :
      Reachable p → Reachable (p.ingest_numbers xs).1
  | resetStep (p : DataPipeline) : Reachable p → Reachable p.reset
  | ingestTexts (p : DataPipeline) (ts : List Value) : Reachable p → Reachable p

theorem applyNums_cache_length (vs : List Value) (p : DataPipeline)
    (h : p.cache.length = p.stats.n) :
    (p.applyNums vs).cache.length = (p.applyNums vs).stats.n := by
  induction vs generalizing p with
  | nil => exact h
  | cons v vs ih =>
    apply ih
    simp [RollingStats.updateNum, h]

/-- C10: in every reachable pipeline state, the cache length equals the
stats observation count. -/
theorem pipeline_cache_length_eq_count (p : DataPipeline) (h : p.Reachable) :
    p.cache.length = p.stats.n := by
  induction h with
  | fresh => rfl
  | ingestNumbers p xs hp ih =>
    rw [ingest_numbers_spec]
    exact applyNums_cache_length _ p ih
  | resetStep p hp ih => rfl
  | ingestTexts p ts hp ih => exact ih

/-- C10 witness: the pipeline reached by ingesting [1, 2, None] from
fresh (two elements applied, then a failure) satisfies the invariant. -/
theorem pipeline_cache_length_eq_count_witness :
    ((DataPipeline.fresh.ingest_numbers [.num 1, .num 2, .none]).1).cache.length
      = ((DataPipeline.fresh.ingest_numbers [.num 1, .num 2, .none]).1).stats.n :=
  pipeline_cache_length_eq_count _
    (.ingestNumbers DataPipeline.fresh [.num 1, .num 2, .none] .fresh)
